import Mathlib

/-!
Shallow embedding of the scan-orchestration and resume subsystem of
feroxbuster (file `src/scan_manager.rs`), together with proofs of the
behavioural properties claimed by the specification.

Modelling conventions:
* JSON values (`serde_json::Value`) are modelled by the inductive `Json`.
* UUID generation (`Uuid::new_v4`) is nondeterministic; every operation
  that generates a fresh id takes the generated id string as an explicit
  parameter.
* Lock-protected containers (`Mutex<Vec<..>>`, `RwLock<Vec<..>>`) are
  modelled by plain lists; the poisoned-lock degradation paths are not
  reachable in the model.
* Process-level effects (logging, `std::process::exit`, panics from
  `unwrap`) are reified in explicit outcome types.
-/

set_option autoImplicit false

/-- Model of `serde_json::Value`: JSON values.  Numbers are modelled as
integers, which is sufficient for every field this subsystem touches. -/
inductive Json where
  | null : Json
  | bool : Bool → Json
  | num : Int → Json
  | str : String → Json
  | arr : List Json → Json
  | obj : List (String × Json) → Json

/-- Model of `Value::as_str`. -/
def Json.asStr : Json → Option String
  | .str s => some s
  | _ => none

/-- Model of `Value::as_bool`. -/
def Json.asBool : Json → Option Bool
  | .bool b => some b
  | _ => none

/-- Model of `Value::as_array`. -/
def Json.asArr : Json → Option (List Json)
  | .arr xs => some xs
  | _ => none

/-- Model of `Value::get(key)`: field lookup on an object, `none` on any
other value.  Objects produced by `serde_json` have distinct keys, so
first-match lookup is exact. -/
def Json.get? (j : Json) (key : String) : Option Json :=
  match j with
  | .obj fields => List.lookup key fields
  | _ => none

/-- `ScanType`: flags a `FeroxScan` as likely a directory or a file. -/
inductive ScanType where
  | File : ScanType
  | Directory : ScanType
deriving DecidableEq, Repr

/-- `impl Default for ScanType`: returns `ScanType::File`. -/
def ScanType.default : ScanType := ScanType.File

/-- Derived serde serialization of `ScanType`: a unit enum variant
serializes to its name as a JSON string. -/
def ScanType.serialize : ScanType → Json
  | .File => Json.str "File"
  | .Directory => Json.str "Directory"

/-- `FeroxScan`: scan-related state for one unit of work.  The
`task : Option<JoinHandle<()>>` and `progress_bar : Option<ProgressBar>`
fields hold handles to external resources; only their presence or absence
is observable to this subsystem, so they are modelled by `Option Unit`. -/
structure FeroxScan where
  id : String
  url : String
  scan_type : ScanType
  complete : Bool
  task : Option Unit
  progress_bar : Option Unit
deriving DecidableEq, Repr

/-- `impl Default for FeroxScan`: populates `id` with a freshly generated
UUID (passed here as the parameter `newId`), leaves `url` empty, the type
`File` and the scan incomplete. -/
def FeroxScan.default (newId : String) : FeroxScan :=
  { id := newId
    url := ""
    scan_type := ScanType.File
    complete := false
    task := none
    progress_bar := none }

/-- `FeroxScan::new`: start from the default scan (with the freshly
generated id `newId`) and set the url, scan type and progress bar. -/
def FeroxScan.new (url : String) (scan_type : ScanType)
    (pb : Option Unit) (newId : String) : FeroxScan :=
  { FeroxScan.default newId with
      url := url
      scan_type := scan_type
      progress_bar := pb }

/-- `impl PartialEq for FeroxScan`: compares the `id` fields only. -/
def FeroxScan.beq (self other : FeroxScan) : Bool :=
  self.id == other.id

/-- `impl Serialize for FeroxScan`: exactly four fields, in the order
id, url, scan_type, complete. -/
def FeroxScan.serialize (self : FeroxScan) : Json :=
  Json.obj
    [ ("id", Json.str self.id)
    , ("url", Json.str self.url)
    , ("scan_type", self.scan_type.serialize)
    , ("complete", Json.bool self.complete) ]

/-- The match on the `scan_type` string inside
`impl Deserialize for FeroxScan`: "File" and "Directory" map to their
variants and every other string falls back to `ScanType::File`. -/
def scanTypeOfString (st : String) : ScanType :=
  match st with
  | "File" => ScanType.File
  | "Directory" => ScanType.Directory
  | _ => ScanType.File

/-- One iteration of the key/value loop in
`impl Deserialize for FeroxScan`: a recognized key whose value has the
expected JSON type overwrites the corresponding field; everything else
leaves the scan unchanged.  An unrecognized `scan_type` string falls back
to `ScanType::File`. -/
def FeroxScan.applyField (scan : FeroxScan) (kv : String × Json) : FeroxScan :=
  match kv.1 with
  | "id" =>
    match kv.2.asStr with
    | some id => { scan with id := id }
    | none => scan
  | "scan_type" =>
    match kv.2.asStr with
    | some st => { scan with scan_type := scanTypeOfString st }
    | none => scan
  | "complete" =>
    match kv.2.asBool with
    | some c => { scan with complete := c }
    | none => scan
  | "url" =>
    match kv.2.asStr with
    | some url => { scan with url := url }
    | none => scan
  | _ => scan

/-- `impl Deserialize for FeroxScan`: deserializing a
`HashMap<String, Value>` succeeds exactly on JSON objects; the scan starts
from `FeroxScan.default` (with fresh id `newId`) and each map entry is
applied to it.  Since the keys of a `serde_json` object are distinct and
distinct keys touch distinct fields, the nondeterministic `HashMap`
iteration order does not affect the result; the model iterates in field
order. -/
def FeroxScan.deserialize (newId : String) : Json → Option FeroxScan
  | .obj fields => some (fields.foldl FeroxScan.applyField (FeroxScan.default newId))
  | _ => none

/-- `FeroxScans`: container around the collection of known scans.  The
`Mutex<Vec<Arc<Mutex<FeroxScan>>>>` is modelled by a plain ordered list. -/
structure FeroxScans where
  scans : List FeroxScan
deriving DecidableEq, Repr

/-- `FeroxScans::default`: the empty registry. -/
def FeroxScans.empty : FeroxScans := ⟨[]⟩

/-- `FeroxScans::contains`: scans the collection and returns `true` on the
first entry whose `url` equals the given url string. -/
def FeroxScans.contains (self : FeroxScans) (url : String) : Bool :=
  self.scans.any fun scan => scan.url == url

/-- `FeroxScans::insert`: first reads the candidate scan url and computes
`sentry = !self.contains(url)`; when `sentry` holds, pushes the scan onto
the end of the collection.  Returns `sentry` together with the updated
registry. -/
def FeroxScans.insert (self : FeroxScans) (scan : FeroxScan) : Bool × FeroxScans :=
  let sentry := !(self.contains scan.url)
  if sentry then
    (sentry, ⟨self.scans ++ [scan]⟩)
  else
    (sentry, self)

/-- A sequence of calls to `FeroxScans::insert`, in order. -/
def FeroxScans.insertSeq (self : FeroxScans) : List FeroxScan → FeroxScans
  | [] => self
  | scan :: rest => ((self.insert scan).2).insertSeq rest

/-- The urls of the scans a sequence of `FeroxScans::insert` calls
accepts, i.e. those for which `insert` returns `true`. -/
def FeroxScans.acceptedUrls (self : FeroxScans) : List FeroxScan → List String
  | [] => []
  | scan :: rest =>
    let r := self.insert scan
    if r.1 then scan.url :: r.2.acceptedUrls rest else r.2.acceptedUrls rest

/-- Modelled from the spec: the `FeroxResponse` record type lives in the
crate root (outside `scan_manager.rs`); per the spec a response record
carries a url, a path, a wildcard flag, a status code, a content length,
line and word counts and a header mapping.  Only the `url` field is read
by this subsystem. -/
structure FeroxResponse where
  url : String
  path : String
  wildcard : Bool
  status : Nat
  content_length : Nat
  line_count : Nat
  word_count : Nat
  headers : List (String × String)
deriving DecidableEq, Repr

/-- `FeroxResponses`: container around the collection of seen responses.
The `Arc<RwLock<Vec<FeroxResponse>>>` is modelled by a plain list. -/
structure FeroxResponses where
  responses : List FeroxResponse
deriving DecidableEq, Repr

/-- `FeroxResponses::insert`: appends, with no deduplication. -/
def FeroxResponses.insert (self : FeroxResponses) (response : FeroxResponse) : FeroxResponses :=
  ⟨self.responses ++ [response]⟩

/-- `FeroxResponses::contains`: scans the collection and returns `true` on
the first stored response whose `url` equals the url of the argument; no
other field is inspected. -/
def FeroxResponses.contains (self : FeroxResponses) (other : FeroxResponse) : Bool :=
  self.responses.any fun response => response.url == other.url

/-- Outcome of a call to `resume_scan`, reifying process termination.
`exited code logged` models `std::process::exit(code)` reached after
`log::error` diagnostics were (`logged = true`) or were not emitted;
`panicked` models an `unwrap()` panic, which aborts the process without a
`log::error` diagnostic and with the panic exit status, not status 1;
`ok` carries the restored configuration and the final contents of the
global response cache `RESPONSES` and scan registry `SCANNED_URLS`. -/
inductive ResumeOutcome (C : Type) where
  | exited : Nat → Bool → ResumeOutcome C
  | panicked : ResumeOutcome C
  | ok : C → FeroxResponses → FeroxScans → ResumeOutcome C
deriving DecidableEq, Repr

/-- Element-wise restore of the `responses` array:
`serde_json::from_value` for `FeroxResponse` is external code, modelled by
an arbitrary decoder `dr`; each element that decodes is inserted into the
cache and each element that fails to decode is skipped silently. -/
def restoreResponses (dr : Json → Option FeroxResponse) :
    List Json → FeroxResponses → FeroxResponses
  | [], cache => cache
  | el :: rest, cache =>
    match dr el with
    | some response => restoreResponses dr rest (cache.insert response)
    | none => restoreResponses dr rest cache

/-- `serde_json::from_value::<FeroxScan>(..).unwrap_or_default()`: decode
a scans-array element, substituting a default scan (with a fresh id) when
decoding fails. -/
def decodeScanOrDefault (newId : String) (el : Json) : FeroxScan :=
  match FeroxScan.deserialize newId el with
  | some scan => scan
  | none => FeroxScan.default newId

/-- Element-wise restore of the `scans` array: each element is decoded
with default fallback and handed to `SCANNED_URLS.insert`.  The fresh ids
consumed by decoding are supplied by the stream `ids`, indexed by element
position starting at `i`. -/
def restoreScans (ids : Nat → String) : Nat → List Json → FeroxScans → FeroxScans
  | _, [], registry => registry
  | i, el :: rest, registry =>
    restoreScans ids (i + 1) rest (registry.insert (decodeScanOrDefault (ids i) el)).2

/-- The scans decoded (with default fallback) from the elements of a
`scans` array, ids drawn from position `i` on. -/
def decodedScans (ids : Nat → String) : Nat → List Json → List FeroxScan
  | _, [] => []
  | i, el :: rest => decodeScanOrDefault (ids i) el :: decodedScans ids (i + 1) rest

/-- `resume_scan`: load a configuration from a state file and populate the
response cache and scan registry.

The file system interaction is modelled by `file : Option (Option Json)`:
`none` means `File::open` fails, `some none` means the file opens but
`serde_json::from_reader` fails to parse it, and `some (some state)`
means it parses to the JSON value `state`.  Deserialization of the
`config` field into a `Configuration` is external code, modelled by the
decoder `dc` into an arbitrary configuration type `C`.

Faithful to the source: an open failure logs and exits 1; a parse failure
hits `.unwrap()` and panics; a missing or undeserializable `config` logs
and exits 1; the `responses` and `scans` arrays are then restored
element-wise and the configuration is returned. -/
def resume_scan {C : Type} (dc : Json → Option C) (dr : Json → Option FeroxResponse)
    (ids : Nat → String) (file : Option (Option Json))
    (cache : FeroxResponses) (registry : FeroxScans) : ResumeOutcome C :=
  match file with
  | none => ResumeOutcome.exited 1 true
  | some none => ResumeOutcome.panicked
  | some (some state) =>
    match state.get? "config" with
    | none => ResumeOutcome.exited 1 true
    | some conf =>
      match dc conf with
      | none => ResumeOutcome.exited 1 true
      | some config =>
        let cache1 :=
          match state.get? "responses" with
          | some responses =>
            match responses.asArr with
            | some xs => restoreResponses dr xs cache
            | none => cache
          | none => cache
        let registry1 :=
          match state.get? "scans" with
          | some scans =>
            match scans.asArr with
            | some xs => restoreScans ids 0 xs registry
            | none => registry
          | none => registry
        ResumeOutcome.ok config cache1 registry1

/-- One step of `str::parse::<u64>` over the remaining characters: each
character must be a decimal digit and the accumulator is updated with
checked arithmetic, failing as soon as the value leaves the u64 range. -/
def parseU64Digits (acc : Nat) : List Char → Option Nat
  | [] => some acc
  | c :: cs =>
    if c.isDigit then
      let acc1 := acc * 10 + (c.toNat - 48)
      if acc1 < 2 ^ 64 then parseU64Digits acc1 cs else none
    else none

/-- Model of `str::parse::<u64>`: an optional leading plus sign followed
by at least one decimal digit, with overflow detection. -/
def parseU64 (s : String) : Option Nat :=
  match s.data with
  | [] => none
  | c :: cs =>
    if c = '+' then
      match cs with
      | [] => none
      | _ => parseU64Digits 0 cs
    else
      parseU64Digits 0 (c :: cs)

/-- Outcome of `start_max_time_thread`.  `enforced secs` means the
function slept for `secs` seconds and then invoked the interrupt handler
`sigint_handler` (which checkpoints state and exits the process with
status 1); `unenforced` means the numeric portion did not parse as a u64,
an error was logged, and the function returned without enforcing any
limit. -/
inductive MaxTimeOutcome where
  | enforced : Nat → MaxTimeOutcome
  | unenforced : MaxTimeOutcome
deriving DecidableEq, Repr

/-- Model of `str::to_ascii_lowercase`, character by character.
`Char.toLower` lowercases exactly the ASCII uppercase range. -/
def asciiLowercase (s : String) : String :=
  String.mk (s.data.map Char.toLower)

/-- `start_max_time_thread`, given the two capture groups of the already
validated time specification (`TIMESPEC_REGEX` lives in the out-of-scope
parser): the numeric portion and the measurement letter.  When the
numeric portion parses as u64 the measurement is lowercased with
`to_ascii_lowercase` and converted to seconds; otherwise the failure is
logged and no limit is enforced. -/
def start_max_time_thread (length_str measurement : String) : MaxTimeOutcome :=
  match parseU64 length_str with
  | some length =>
    let length_in_secs :=
      match asciiLowercase measurement with
      | "s" => length
      | "m" => length * 60
      | "h" => length * 60 * 60
      | "d" => length * 60 * 60 * 24
      | _ => length
    MaxTimeOutcome.enforced length_in_secs
  | none => MaxTimeOutcome.unenforced

/-- The polling loop of `FeroxScans::pause`, with poll ticks as steps: at
tick `t` the loop reads the global `PAUSE_SCAN` flag (the read is
modelled by `flag t`); while the flag reads `true` the loop keeps
looping, and the first tick at which it reads `false` makes the function
return.  `fuel` bounds the number of ticks examined; the result is the
tick at which the loop exits, or `none` when the flag stayed set for all
`fuel` ticks. -/
def pauseLoop (flag : Nat → Bool) : Nat → Nat → Option Nat
  | 0, _ => none
  | fuel + 1, t => if flag t then pauseLoop flag fuel (t + 1) else some t

/-- The barrier update on the exit path of `FeroxScans::pause`: the
`INTERACTIVE_BARRIER` counter is decremented only when it equals exactly
1, and left unchanged otherwise. -/
def pauseExitBarrier (b : Nat) : Nat :=
  if b = 1 then b - 1 else b

/-- State of one in-flight call to `FeroxScans::insert` in the
interleaving model: `sentry` is `none` until the membership-check phase
has run, and `result` is `none` until the push phase has run and the call
has returned. -/
structure InsertCall where
  scan : FeroxScan
  sentry : Option Bool
  result : Option Bool
deriving DecidableEq, Repr

/-- A fresh call to `FeroxScans::insert` carrying the given scan. -/
def InsertCall.start (scan : FeroxScan) : InsertCall :=
  ⟨scan, none, none⟩

/-- One atomic step of an in-flight `FeroxScans::insert` call.  The
source takes and releases the collection lock twice, so the call has two
separately-locked phases: phase one computes
`sentry = !self.contains(url)` under the lock acquired by `contains`;
phase two, when `sentry` holds, re-acquires the lock and pushes the scan,
and the call returns `sentry`.  A finished call steps to itself. -/
def insertStep (registry : FeroxScans) (call : InsertCall) : FeroxScans × InsertCall :=
  match call.sentry with
  | none =>
    (registry, { call with sentry := some (!(registry.contains call.scan.url)) })
  | some sentry =>
    match call.result with
    | none =>
      if sentry then
        (⟨registry.scans ++ [call.scan]⟩, { call with result := some sentry })
      else
        (registry, { call with result := some sentry })
    | some _ => (registry, call)

/-- Run two concurrent `FeroxScans::insert` calls under a schedule: each
list entry picks which call performs its next atomic step (`false` for
the first call, `true` for the second). -/
def runSchedule (registry : FeroxScans) (a b : InsertCall) :
    List Bool → FeroxScans × InsertCall × InsertCall
  | [] => (registry, a, b)
  | false :: rest =>
    let s := insertStep registry a
    runSchedule s.1 s.2 b rest
  | true :: rest =>
    let s := insertStep registry b
    runSchedule s.1 a s.2 rest

/-- The number of registered scans carrying a given url. -/
def FeroxScans.countUrl (self : FeroxScans) (url : String) : Nat :=
  (self.scans.filter fun scan => scan.url == url).length

/-- The mathematical value denoted by a string of decimal digits. -/
def digitsVal (s : String) : Nat :=
  s.data.foldl (fun acc c => acc * 10 + (c.toNat - 48)) 0

/-!  Helper lemmas. -/

theorem FeroxScans.contains_iff (self : FeroxScans) (url : String) :
    self.contains url = true ↔ ∃ scan ∈ self.scans, scan.url = url := by
  simp [FeroxScans.contains, List.any_eq_true]

theorem FeroxScans.insertSeq_map_url (seq : List FeroxScan) :
    ∀ self : FeroxScans,
      (self.insertSeq seq).scans.map FeroxScan.url
        = self.scans.map FeroxScan.url ++ self.acceptedUrls seq := by
  induction seq with
  | nil =>
    intro self
    simp [FeroxScans.insertSeq, FeroxScans.acceptedUrls]
  | cons scan rest ih =>
    intro self
    by_cases h : self.contains scan.url
    · simp [FeroxScans.insertSeq, FeroxScans.acceptedUrls, FeroxScans.insert, h, ih]
    · simp [FeroxScans.insertSeq, FeroxScans.acceptedUrls, FeroxScans.insert, h, ih]

theorem FeroxScans.contains_false_not_mem (self : FeroxScans) (url : String)
    (h : ¬self.contains url = true) : url ∉ self.scans.map FeroxScan.url := by
  intro hmem
  rcases List.mem_map.mp hmem with ⟨s, hs, hurl⟩
  exact h ((FeroxScans.contains_iff self url).mpr ⟨s, hs, hurl⟩)

theorem FeroxScans.insertSeq_nodup (seq : List FeroxScan) :
    ∀ self : FeroxScans, (self.scans.map FeroxScan.url).Nodup →
      ((self.insertSeq seq).scans.map FeroxScan.url).Nodup := by
  induction seq with
  | nil =>
    intro self h
    simpa [FeroxScans.insertSeq] using h
  | cons scan rest ih =>
    intro self h
    by_cases hc : self.contains scan.url
    · simpa [FeroxScans.insertSeq, FeroxScans.insert, hc] using ih self h
    · have hmem : scan.url ∉ self.scans.map FeroxScan.url :=
        FeroxScans.contains_false_not_mem self scan.url hc
      have hnew : (((⟨self.scans ++ [scan]⟩ : FeroxScans)).scans.map FeroxScan.url).Nodup := by
        have happ : (self.scans.map FeroxScan.url ++ [scan.url]).Nodup := by
          rw [List.nodup_append]
          refine ⟨h, List.nodup_singleton _, ?_⟩
          intro x hx hxs
          simp only [List.mem_singleton] at hxs
          subst hxs
          exact hmem hx
        simpa using happ
      simpa [FeroxScans.insertSeq, FeroxScans.insert, hc] using
        ih ⟨self.scans ++ [scan]⟩ hnew

theorem restoreResponses_eq (dr : Json → Option FeroxResponse) :
    ∀ (xs : List Json) (cache : FeroxResponses),
      restoreResponses dr xs cache = ⟨cache.responses ++ xs.filterMap dr⟩ := by
  intro xs
  induction xs with
  | nil =>
    intro cache
    cases cache
    simp [restoreResponses]
  | cons x rest ih =>
    intro cache
    rcases hx : dr x with _ | r
    · simp [restoreResponses, hx, ih]
    · simp [restoreResponses, hx, ih, FeroxResponses.insert]

theorem restoreScans_eq (ids : Nat → String) :
    ∀ (xs : List Json) (i : Nat) (registry : FeroxScans),
      restoreScans ids i xs registry = registry.insertSeq (decodedScans ids i xs) := by
  intro xs
  induction xs with
  | nil =>
    intro i registry
    simp [restoreScans, decodedScans, FeroxScans.insertSeq]
  | cons x rest ih =>
    intro i registry
    simp [restoreScans, decodedScans, FeroxScans.insertSeq, ih]

theorem pauseLoop_spec (flag : Nat → Bool) :
    ∀ (fuel t0 t : Nat), pauseLoop flag fuel t0 = some t →
      t0 ≤ t ∧ flag t = false ∧ ∀ u, t0 ≤ u → u < t → flag u = true := by
  intro fuel
  induction fuel with
  | zero =>
    intro t0 t h
    simp [pauseLoop] at h
  | succ n ih =>
    intro t0 t h
    by_cases hf : flag t0 = true
    · simp [pauseLoop, hf] at h
      obtain ⟨h1, h2, h3⟩ := ih (t0 + 1) t h
      refine ⟨by omega, h2, ?_⟩
      intro u hu1 hu2
      rcases Nat.eq_or_lt_of_le hu1 with heq | hlt
      · exact heq ▸ hf
      · exact h3 u hlt hu2
    · simp [pauseLoop, hf] at h
      subst h
      exact ⟨Nat.le_refl t0, by simpa using hf, fun u hu1 hu2 => absurd (Nat.lt_of_le_of_lt hu1 hu2) (Nat.lt_irrefl t0)⟩

theorem digits_foldl_mono : ∀ (cs : List Char) (acc : Nat),
    acc ≤ cs.foldl (fun a c => a * 10 + (c.toNat - 48)) acc := by
  intro cs
  induction cs with
  | nil => intro acc; simp
  | cons c rest ih =>
    intro acc
    calc acc ≤ acc * 10 + (c.toNat - 48) := by omega
    _ ≤ _ := by simpa using ih (acc * 10 + (c.toNat - 48))

theorem parseU64Digits_spec : ∀ (cs : List Char) (acc : Nat),
    acc < 2 ^ 64 →
    parseU64Digits acc cs =
      (if _h : ∀ c ∈ cs, c.isDigit then
        (if cs.foldl (fun a c => a * 10 + (c.toNat - 48)) acc < 2 ^ 64
          then some (cs.foldl (fun a c => a * 10 + (c.toNat - 48)) acc)
          else none)
      else none) := by
  intro cs
  induction cs with
  | nil =>
    intro acc hacc
    have h1 : ∀ c ∈ ([] : List Char), c.isDigit := by simp
    rw [parseU64Digits, dif_pos h1, List.foldl_nil, if_pos hacc]
  | cons c rest ih =>
    intro acc hacc
    rw [parseU64Digits]
    by_cases hc : c.isDigit
    · rw [if_pos hc]
      show (if acc * 10 + (c.toNat - 48) < 2 ^ 64
              then parseU64Digits (acc * 10 + (c.toNat - 48)) rest
              else none) = _
      by_cases hov : acc * 10 + (c.toNat - 48) < 2 ^ 64
      · rw [if_pos hov, ih _ hov]
        by_cases hrest : ∀ x ∈ rest, x.isDigit
        · have hall : ∀ x ∈ c :: rest, x.isDigit := by
            intro x hx
            rcases List.mem_cons.mp hx with h1 | h2
            · exact h1 ▸ hc
            · exact hrest x h2
          rw [dif_pos hrest, dif_pos hall, List.foldl_cons]
        · have hnall : ¬∀ x ∈ c :: rest, x.isDigit := fun hall =>
            hrest fun x hx => hall x (List.mem_cons_of_mem c hx)
          rw [dif_neg hrest, dif_neg hnall]
      · rw [if_neg hov]
        have hge : 2 ^ 64 ≤ (c :: rest).foldl (fun a x => a * 10 + (x.toNat - 48)) acc := by
          rw [List.foldl_cons]
          exact Nat.le_trans (Nat.le_of_not_lt hov) (digits_foldl_mono rest _)
        by_cases hall : ∀ x ∈ c :: rest, x.isDigit
        · rw [dif_pos hall, if_neg (Nat.not_lt.mpr hge)]
        · rw [dif_neg hall]
    · rw [if_neg hc]
      have hnall : ¬∀ x ∈ c :: rest, x.isDigit := fun hall =>
        hc (hall c (List.mem_cons_self c rest))
      rw [dif_neg hnall]

theorem parseU64_digit_string (s : String) (hne : s.data ≠ [])
    (hd : ∀ c ∈ s.data, c.isDigit) :
    parseU64 s = if digitsVal s < 2 ^ 64 then some (digitsVal s) else none := by
  rcases hs : s.data with _ | ⟨c, cs⟩
  · exact absurd hs hne
  · have hall : ∀ x ∈ c :: cs, x.isDigit := by
      rw [← hs]
      exact hd
    have hc : c.isDigit := hall c (List.mem_cons_self c cs)
    have hplus : ¬c = '+' := by
      intro hceq
      rw [hceq] at hc
      exact absurd hc (by decide)
    simp only [parseU64, hs]
    rw [if_neg hplus, parseU64Digits_spec (c :: cs) 0 (by positivity), dif_pos hall]
    simp only [digitsVal, hs]

theorem FeroxScans.insert_fst (self : FeroxScans) (scan : FeroxScan) :
    (self.insert scan).1 = !(self.contains scan.url) := by
  by_cases h : self.contains scan.url = true <;> simp [FeroxScans.insert, h]

theorem FeroxScans.insert_snd_pos (self : FeroxScans) (scan : FeroxScan)
    (h : ¬self.contains scan.url = true) :
    (self.insert scan).2 = ⟨self.scans ++ [scan]⟩ := by
  simp [FeroxScans.insert, h]

theorem FeroxScans.insert_snd_neg (self : FeroxScans) (scan : FeroxScan)
    (h : self.contains scan.url = true) :
    (self.insert scan).2 = self := by
  simp [FeroxScans.insert, h]

theorem scanTypeOfString_eq_file (st : String) (h : ¬st = "Directory") :
    scanTypeOfString st = ScanType.File := by
  unfold scanTypeOfString
  split <;> simp_all

theorem foldl_neutral {α β : Type} (f : α → β → α) :
    ∀ (l : List β) (init : α), (∀ x ∈ l, ∀ a, f a x = a) → l.foldl f init = init := by
  intro l
  induction l with
  | nil => intro init _; rfl
  | cons x rest ih =>
    intro init h
    rw [List.foldl_cons, h x (List.mem_cons_self x rest) init]
    exact ih init fun y hy a => h y (List.mem_cons_of_mem x hy) a

/-!  Claim theorems. -/

/-- C1: `FeroxScans::insert` returns true and appends the scan to the end
of the collection iff no already-registered scan has a url string equal
to the candidate url; when such an entry exists it returns false and
leaves the registry unchanged.  Consequently, starting from the empty
registry, any sequence of inserts registers at most one scan per distinct
url, and `contains url` holds exactly for the urls of the accepted scans
(the ones whose insert returned true). -/
theorem insert_dedups_by_url :
    (∀ (self : FeroxScans) (scan : FeroxScan),
      ((self.insert scan).1 = true ↔ ¬∃ s ∈ self.scans, s.url = scan.url)
      ∧ ((self.insert scan).1 = true →
          (self.insert scan).2.scans = self.scans ++ [scan])
      ∧ ((self.insert scan).1 = false → (self.insert scan).2 = self))
    ∧ (∀ seq : List FeroxScan,
      ((FeroxScans.empty.insertSeq seq).scans.map FeroxScan.url).Nodup
      ∧ ∀ url, (FeroxScans.empty.insertSeq seq).contains url = true ↔
          url ∈ FeroxScans.empty.acceptedUrls seq) := by
  constructor
  · intro self scan
    refine ⟨?_, ?_, ?_⟩
    · rw [FeroxScans.insert_fst, ← FeroxScans.contains_iff]
      by_cases h : self.contains scan.url = true <;> simp [h]
    · intro h
      rw [FeroxScans.insert_fst] at h
      rw [FeroxScans.insert_snd_pos self scan (by simpa using h)]
    · intro h
      rw [FeroxScans.insert_fst] at h
      exact FeroxScans.insert_snd_neg self scan (by simpa using h)
  · intro seq
    have hmap : (FeroxScans.empty.insertSeq seq).scans.map FeroxScan.url
        = FeroxScans.empty.acceptedUrls seq :=
      (FeroxScans.insertSeq_map_url seq FeroxScans.empty).trans
        (List.nil_append (FeroxScans.empty.acceptedUrls seq))
    constructor
    · exact FeroxScans.insertSeq_nodup seq FeroxScans.empty (by simp [FeroxScans.empty])
    · intro url
      rw [FeroxScans.contains_iff, ← hmap]
      constructor
      · rintro ⟨s, hs, hurl⟩
        exact List.mem_map.mpr ⟨s, hs, hurl⟩
      · intro h
        rcases List.mem_map.mp h with ⟨s, hs, hurl⟩
        exact ⟨s, hs, hurl⟩

/-- C1 witness: a concrete accepted insert, through `insert_dedups_by_url`. -/
theorem insert_dedups_by_url_witness :
    (FeroxScans.empty.insert (FeroxScan.new "http://unknown_url" ScanType.Directory none "ida")).1 = true
    ∧ (FeroxScans.empty.insert (FeroxScan.new "http://unknown_url" ScanType.Directory none "ida")).2.scans
        = FeroxScans.empty.scans ++ [FeroxScan.new "http://unknown_url" ScanType.Directory none "ida"] :=
  ⟨by decide,
   (insert_dedups_by_url.1 FeroxScans.empty
      (FeroxScan.new "http://unknown_url" ScanType.Directory none "ida")).2.1 (by decide)⟩

/-- C4: serializing a `FeroxScan` and deserializing the result reproduces
the id, url, scan type and completion flag; and deserializing a record
whose `scan_type` string is neither "File" nor "Directory" yields the
`File` scan type rather than an error. -/
theorem scan_serialization_round_trip :
    (∀ (scan : FeroxScan) (newId : String),
      ∃ s, FeroxScan.deserialize newId scan.serialize = some s
        ∧ s.id = scan.id ∧ s.url = scan.url ∧ s.scan_type = scan.scan_type
        ∧ s.complete = scan.complete)
    ∧ (∀ (newId id url : String) (complete : Bool) (st : String),
        st ≠ "File" → st ≠ "Directory" →
        ∃ s, FeroxScan.deserialize newId
            (Json.obj [("id", Json.str id), ("url", Json.str url),
                       ("scan_type", Json.str st), ("complete", Json.bool complete)])
          = some s ∧ s.scan_type = ScanType.File) := by
  constructor
  · intro scan newId
    cases scan with
    | mk id url scan_type complete task progress_bar =>
      cases scan_type <;> exact ⟨_, rfl, rfl, rfl, rfl, rfl⟩
  · intro newId id url complete st hF hD
    refine ⟨⟨id, url, scanTypeOfString st, complete, none, none⟩, rfl, ?_⟩
    exact scanTypeOfString_eq_file st hD

/-- C4 witness: the test vector with `scan_type` "Not Correct", through
`scan_serialization_round_trip`. -/
theorem scan_serialization_round_trip_witness :
    ("Not Correct" ≠ "File" ∧ "Not Correct" ≠ "Directory")
    ∧ ∃ s, FeroxScan.deserialize "fresh"
        (Json.obj [("id", Json.str "057016a14769414aac9a7a62707598cb"),
                   ("url", Json.str "https://spiritanimal.com"),
                   ("scan_type", Json.str "Not Correct"),
                   ("complete", Json.bool true)])
      = some s ∧ s.scan_type = ScanType.File :=
  ⟨⟨by decide, by decide⟩,
   scan_serialization_round_trip.2 "fresh" "057016a14769414aac9a7a62707598cb"
     "https://spiritanimal.com" true "Not Correct" (by decide) (by decide)⟩

/-- C5: `FeroxResponses::contains` holds iff some stored entry has a url
equal to the url of the query; every other field of both the query and
the stored entries is ignored, so two queries with equal urls always get
the same answer. -/
theorem response_contains_by_url_only :
    (∀ (cache : FeroxResponses) (other : FeroxResponse),
      cache.contains other = true ↔ ∃ stored ∈ cache.responses, stored.url = other.url)
    ∧ (∀ (cache : FeroxResponses) (r1 r2 : FeroxResponse), r1.url = r2.url →
        cache.contains r1 = cache.contains r2) := by
  constructor
  · intro cache other
    simp [FeroxResponses.contains, List.any_eq_true]
  · intro cache r1 r2 h
    simp [FeroxResponses.contains, h]

/-- C5 witness: a stored entry agreeing with the query on url alone makes
`contains` true, through `response_contains_by_url_only`. -/
theorem response_contains_by_url_only_witness :
    (FeroxResponses.contains
        ⟨[⟨"https://nerdcore.com/css", "/css", true, 301, 173, 10, 16, []⟩]⟩
        ⟨"https://nerdcore.com/css", "", false, 404, 0, 0, 0, []⟩) = true :=
  (response_contains_by_url_only.1
      ⟨[⟨"https://nerdcore.com/css", "/css", true, 301, 173, 10, 16, []⟩]⟩
      ⟨"https://nerdcore.com/css", "", false, 404, 0, 0, 0, []⟩).mpr
    ⟨⟨"https://nerdcore.com/css", "/css", true, 301, 173, 10, 16, []⟩, by decide, rfl⟩

/-- C8: equality of scans is determined solely by the id field: `eq`
holds iff the id strings are equal, two scans built for the same url with
distinct fresh ids are unequal, and copying one id onto the other scan
makes them equal whatever the other fields hold. -/
theorem scan_eq_by_id_only :
    (∀ a b : FeroxScan, FeroxScan.beq a b = true ↔ a.id = b.id)
    ∧ (∀ (url id1 id2 : String) (k1 k2 : ScanType) (p1 p2 : Option Unit),
        id1 ≠ id2 →
        FeroxScan.beq (FeroxScan.new url k1 p1 id1) (FeroxScan.new url k2 p2 id2) = false)
    ∧ (∀ a b : FeroxScan, FeroxScan.beq a { b with id := a.id } = true) := by
  refine ⟨?_, ?_, ?_⟩
  · intro a b
    simp [FeroxScan.beq]
  · intro url id1 id2 k1 k2 p1 p2 h
    simp [FeroxScan.beq, FeroxScan.new, FeroxScan.default, h]
  · intro a b
    simp [FeroxScan.beq]

/-- C8 witness: two same-url scans with distinct ids are unequal, through
`scan_eq_by_id_only`. -/
theorem scan_eq_by_id_only_witness :
    ("ida" : String) ≠ "idb"
    ∧ FeroxScan.beq (FeroxScan.new "http://unknown_url/" ScanType.Directory none "ida")
        (FeroxScan.new "http://unknown_url/" ScanType.Directory none "idb") = false :=
  ⟨by decide,
   scan_eq_by_id_only.2.1 "http://unknown_url/" "ida" "idb"
     ScanType.Directory ScanType.Directory none none (by decide)⟩

/-- C10: deserialization of a `FeroxScan` succeeds on every JSON object
and only on objects; an empty object gives the default scan (fresh id,
empty url, `File` kind, incomplete); an unrecognized key, or a recognized
key carrying a value of the wrong JSON type, leaves the scan unchanged,
so any object whose entries are all inert deserializes to the default. -/
theorem scan_deserialize_total :
    (∀ (newId : String) (j : Json),
      (FeroxScan.deserialize newId j).isSome = true ↔ ∃ fields, j = Json.obj fields)
    ∧ (∀ newId : String,
        FeroxScan.deserialize newId (Json.obj []) = some (FeroxScan.default newId)
        ∧ (FeroxScan.default newId).id = newId
        ∧ (FeroxScan.default newId).url = ""
        ∧ (FeroxScan.default newId).scan_type = ScanType.File
        ∧ (FeroxScan.default newId).complete = false)
    ∧ (∀ (scan : FeroxScan) (k : String) (v : Json),
        ¬(k = "id" ∨ k = "url" ∨ k = "scan_type" ∨ k = "complete") →
        FeroxScan.applyField scan (k, v) = scan)
    ∧ (∀ (scan : FeroxScan) (v : Json), v.asStr = none →
        FeroxScan.applyField scan ("id", v) = scan
        ∧ FeroxScan.applyField scan ("url", v) = scan
        ∧ FeroxScan.applyField scan ("scan_type", v) = scan)
    ∧ (∀ (scan : FeroxScan) (v : Json), v.asBool = none →
        FeroxScan.applyField scan ("complete", v) = scan)
    ∧ (∀ (newId : String) (fields : List (String × Json)),
        (∀ kv ∈ fields, ∀ s : FeroxScan, FeroxScan.applyField s kv = s) →
        FeroxScan.deserialize newId (Json.obj fields) = some (FeroxScan.default newId)) := by
  refine ⟨?_, ?_, ?_, ?_, ?_, ?_⟩
  · intro newId j
    cases j <;> simp [FeroxScan.deserialize]
  · intro newId
    exact ⟨rfl, rfl, rfl, rfl, rfl⟩
  · intro scan k v h
    unfold FeroxScan.applyField
    split <;> simp_all
  · intro scan v h
    refine ⟨?_, ?_, ?_⟩ <;> (cases v <;> first | rfl | simp_all [Json.asStr])
  · intro scan v h
    cases v <;> first | rfl | simp_all [Json.asBool]
  · intro newId fields hneutral
    simp only [FeroxScan.deserialize]
    rw [foldl_neutral FeroxScan.applyField fields (FeroxScan.default newId) hneutral]

/-- C2 counterexample: when the state file opens but its contents fail to
parse as JSON, `resume_scan` reaches the `unwrap` on the parse result and
panics, instead of logging a diagnostic and exiting with code 1 as
claimed for that condition. -/
theorem resume_parse_failure_panics :
    resume_scan (fun j => some j) (fun _ => none) (fun _ => "") (some none)
        ⟨[]⟩ FeroxScans.empty = ResumeOutcome.panicked
    ∧ resume_scan (fun j => some j) (fun _ => none) (fun _ => "") (some none)
        ⟨[]⟩ FeroxScans.empty ≠ ResumeOutcome.exited 1 true :=
  ⟨rfl, fun h => ResumeOutcome.noConfusion h⟩

/-- C2 amended: `resume_scan` has exactly three fatal conditions; the
unopenable state file and the missing or undeserializable `config` field
each log a diagnostic and exit with code 1, while contents that fail to
parse as JSON terminate the process through an unlogged `unwrap` panic
rather than a logged exit with code 1; no other path terminates the
process. -/
theorem resume_fatal_paths {C : Type} (dc : Json → Option C)
    (dr : Json → Option FeroxResponse) (ids : Nat → String)
    (file : Option (Option Json)) (cache : FeroxResponses) (registry : FeroxScans) :
    (resume_scan dc dr ids file cache registry = ResumeOutcome.exited 1 true ↔
      (file = none
        ∨ ∃ state, file = some (some state)
            ∧ (state.get? "config" = none
                ∨ ∃ conf, state.get? "config" = some conf ∧ dc conf = none)))
    ∧ (resume_scan dc dr ids file cache registry = ResumeOutcome.panicked ↔
        file = some none)
    ∧ (∀ (code : Nat) (logged : Bool),
        resume_scan dc dr ids file cache registry = ResumeOutcome.exited code logged →
        code = 1 ∧ logged = true) := by
  rcases file with _ | f
  · simp [resume_scan]
  · rcases f with _ | state
    · simp [resume_scan]
    · rcases hconf : state.get? "config" with _ | conf
      · simp [resume_scan, hconf]
      · rcases hdc : dc conf with _ | config
        · simp [resume_scan, hconf, hdc]
        · simp [resume_scan, hconf, hdc]

/-- C2 witness: an unopenable state file logs and exits with code 1,
through `resume_fatal_paths`. -/
theorem resume_fatal_paths_witness :
    resume_scan (fun j => some j) (fun _ => none) (fun _ => "") none ⟨[]⟩ FeroxScans.empty
      = ResumeOutcome.exited 1 true
    ∧ ((1 : Nat) = 1 ∧ (true : Bool) = true) :=
  ⟨rfl,
   (resume_fatal_paths (fun j => some j) (fun _ => none) (fun _ => "")
      none ⟨[]⟩ FeroxScans.empty).2.2 1 true rfl⟩

/-- C3: when the state parses and carries a valid `config`, a malformed
array element never aborts the restore: the response cache receives
exactly the elements of the `responses` array that deserialize
(silently skipping each failure), the registry insert runs once per
element of the `scans` array with a default scan substituted for elements
that fail to deserialize, and the restored configuration is returned. -/
theorem resume_restores_best_effort {C : Type} (dc : Json → Option C)
    (dr : Json → Option FeroxResponse) (ids : Nat → String)
    (state conf : Json) (config : C) (xs ys : List Json)
    (cache : FeroxResponses) (registry : FeroxScans)
    (hconf : state.get? "config" = some conf)
    (hdc : dc conf = some config)
    (hresp : state.get? "responses" = some (Json.arr xs))
    (hscans : state.get? "scans" = some (Json.arr ys)) :
    resume_scan dc dr ids (some (some state)) cache registry =
      ResumeOutcome.ok config
        ⟨cache.responses ++ xs.filterMap dr⟩
        (registry.insertSeq (decodedScans ids 0 ys)) := by
  simp only [resume_scan, hconf, hdc, hresp, hscans, Json.asArr]
  rw [restoreResponses_eq, restoreScans_eq]

/-- C3 witness: a state with one bad response element and one bad scan
element still restores, through `resume_restores_best_effort`. -/
theorem resume_restores_best_effort_witness :
    (Json.obj [("config", Json.str "cfg"),
               ("responses", Json.arr [Json.str "https://a", Json.num 3]),
               ("scans", Json.arr [Json.obj [("url", Json.str "https://b")], Json.null])]).get?
        "config" = some (Json.str "cfg")
    ∧ resume_scan (fun j => some j)
        (fun j => match j.asStr with
          | some u => some ⟨u, "", false, 0, 0, 0, 0, []⟩
          | none => none)
        (fun _ => "fresh")
        (some (some (Json.obj [("config", Json.str "cfg"),
               ("responses", Json.arr [Json.str "https://a", Json.num 3]),
               ("scans", Json.arr [Json.obj [("url", Json.str "https://b")], Json.null])])))
        ⟨[]⟩ FeroxScans.empty
      = ResumeOutcome.ok (Json.str "cfg")
          ⟨[] ++ [Json.str "https://a", Json.num 3].filterMap
              (fun j => match j.asStr with
                | some u => some ⟨u, "", false, 0, 0, 0, 0, []⟩
                | none => none)⟩
          (FeroxScans.empty.insertSeq
            (decodedScans (fun _ => "fresh") 0
              [Json.obj [("url", Json.str "https://b")], Json.null])) :=
  ⟨rfl,
   resume_restores_best_effort (fun j => some j)
     (fun j => match j.asStr with
       | some u => some ⟨u, "", false, 0, 0, 0, 0, []⟩
       | none => none)
     (fun _ => "fresh")
     (Json.obj [("config", Json.str "cfg"),
               ("responses", Json.arr [Json.str "https://a", Json.num 3]),
               ("scans", Json.arr [Json.obj [("url", Json.str "https://b")], Json.null])])
     (Json.str "cfg") (Json.str "cfg")
     [Json.str "https://a", Json.num 3]
     [Json.obj [("url", Json.str "https://b")], Json.null]
     ⟨[]⟩ FeroxScans.empty rfl rfl rfl rfl⟩

/-- C6: for a validated time specification whose numeric portion is a
digit string: if the value fits in an unsigned 64-bit integer the
enforced duration is the value in seconds for unit s, times 60 for m,
times 3600 for h and times 86400 for d (units case-insensitive), after
which the interrupt handler is invoked; if the value overflows u64 the
failure is logged and the function returns without ever invoking the
interrupt handler. -/
theorem max_time_limit_spec :
    (∀ (ds measurement : String) (n : Nat),
      ds.data ≠ [] → (∀ c ∈ ds.data, c.isDigit) → digitsVal ds = n → n < 2 ^ 64 →
      (asciiLowercase measurement = "s" →
        start_max_time_thread ds measurement = MaxTimeOutcome.enforced n)
      ∧ (asciiLowercase measurement = "m" →
        start_max_time_thread ds measurement = MaxTimeOutcome.enforced (n * 60))
      ∧ (asciiLowercase measurement = "h" →
        start_max_time_thread ds measurement = MaxTimeOutcome.enforced (n * 3600))
      ∧ (asciiLowercase measurement = "d" →
        start_max_time_thread ds measurement = MaxTimeOutcome.enforced (n * 86400)))
    ∧ (∀ (ds measurement : String),
        ds.data ≠ [] → (∀ c ∈ ds.data, c.isDigit) → 2 ^ 64 ≤ digitsVal ds →
        start_max_time_thread ds measurement = MaxTimeOutcome.unenforced) := by
  constructor
  · intro ds measurement n hne hd hval hlt
    have hp : parseU64 ds = some n := by
      rw [parseU64_digit_string ds hne hd, hval, if_pos hlt]
    refine ⟨fun hu => ?_, fun hu => ?_, fun hu => ?_, fun hu => ?_⟩
    · simp [start_max_time_thread, hp, hu]
    · simp [start_max_time_thread, hp, hu]
    · simp only [start_max_time_thread, hp, hu]
      congr 1
      ring
    · simp only [start_max_time_thread, hp, hu]
      congr 1
      ring
  · intro ds measurement hne hd hge
    have hp : parseU64 ds = none := by
      rw [parseU64_digit_string ds hne hd, if_neg (Nat.not_lt.mpr hge)]
    simp [start_max_time_thread, hp]

/-- C6 witness: the spec "3s" enforces a 3-second limit and a numeric
portion exceeding the u64 range enforces nothing, through
`max_time_limit_spec`. -/
theorem max_time_limit_spec_witness :
    start_max_time_thread "3" "s" = MaxTimeOutcome.enforced 3
    ∧ start_max_time_thread "18446744073709551616" "m" = MaxTimeOutcome.unenforced :=
  ⟨(max_time_limit_spec.1 "3" "s" 3 (by decide) (by decide) (by decide) (by decide)).1
      (by decide),
   max_time_limit_spec.2 "18446744073709551616" "m" (by decide) (by decide) (by decide)⟩

/-- C7: the pause loop returns only at a tick where the pause flag reads
false: at every earlier tick the flag read true and the loop kept
looping, so when the flag stays set for the first D ticks the loop cannot
return before tick D; and on the exit path the interactive barrier is
decremented exactly when it equals 1. -/
theorem pause_returns_only_after_flag_clears (flag : Nat → Bool) (fuel t : Nat)
    (h : pauseLoop flag fuel 0 = some t) :
    flag t = false
    ∧ (∀ u, u < t → flag u = true)
    ∧ (∀ D, (∀ u, u < D → flag u = true) → D ≤ t)
    ∧ pauseExitBarrier 1 = 0
    ∧ (∀ b, b ≠ 1 → pauseExitBarrier b = b) := by
  obtain ⟨-, h2, h3⟩ := pauseLoop_spec flag fuel 0 t h
  refine ⟨h2, fun u hu => h3 u (Nat.zero_le u) hu, ?_, rfl, ?_⟩
  · intro D hD
    by_contra hcon
    push_neg at hcon
    exact absurd (hD t hcon) (by simp [h2])
  · intro b hb
    simp [pauseExitBarrier, hb]

/-- C7 witness: a flag cleared at tick 2 makes the loop exit at tick 2,
through `pause_returns_only_after_flag_clears`. -/
theorem pause_returns_only_after_flag_clears_witness :
    pauseLoop (fun u => decide (u < 2)) 5 0 = some 2
    ∧ (fun u : Nat => decide (u < 2)) 2 = false :=
  ⟨rfl, (pause_returns_only_after_flag_clears (fun u => decide (u < 2)) 5 2 rfl).1⟩

/-- C9 counterexample: interleaving the membership checks of two
concurrent same-url insert calls before either push makes both calls
return true and leaves two registry entries for that url, refuting the
claimed atomicity of check-then-push for every interleaving. -/
theorem insert_race_both_accept :
    ((runSchedule FeroxScans.empty
        (InsertCall.start (FeroxScan.new "http://unknown_url" ScanType.File none "ida"))
        (InsertCall.start (FeroxScan.new "http://unknown_url" ScanType.File none "idb"))
        [false, true, false, true]).2.1.result = some true)
    ∧ ((runSchedule FeroxScans.empty
        (InsertCall.start (FeroxScan.new "http://unknown_url" ScanType.File none "ida"))
        (InsertCall.start (FeroxScan.new "http://unknown_url" ScanType.File none "idb"))
        [false, true, false, true]).2.2.result = some true)
    ∧ ((runSchedule FeroxScans.empty
        (InsertCall.start (FeroxScan.new "http://unknown_url" ScanType.File none "ida"))
        (InsertCall.start (FeroxScan.new "http://unknown_url" ScanType.File none "idb"))
        [false, true, false, true]).1.countUrl "http://unknown_url" = 2) :=
  ⟨rfl, rfl, rfl⟩

/-- C9 amended: with the two-phase locking of the source, check-then-push
behaves atomically only for non-overlapping calls: when one same-url
insert completes before the other starts (in either order), at most one
of the two calls returns true and the registry gains at most one entry
for that url; an overlapped interleaving can make both calls return
true. -/
theorem insert_atomic_only_sequentially (registry : FeroxScans) (a b : FeroxScan)
    (h : a.url = b.url) :
    (¬((runSchedule registry (InsertCall.start a) (InsertCall.start b)
          [false, false, true, true]).2.1.result = some true
        ∧ (runSchedule registry (InsertCall.start a) (InsertCall.start b)
          [false, false, true, true]).2.2.result = some true))
    ∧ (runSchedule registry (InsertCall.start a) (InsertCall.start b)
          [false, false, true, true]).1.countUrl a.url
        ≤ registry.countUrl a.url + 1
    ∧ (¬((runSchedule registry (InsertCall.start a) (InsertCall.start b)
          [true, true, false, false]).2.1.result = some true
        ∧ (runSchedule registry (InsertCall.start a) (InsertCall.start b)
          [true, true, false, false]).2.2.result = some true)) := by
  by_cases hc : registry.contains a.url = true
  · have hcb : registry.contains b.url = true := by
      rw [← h]
      exact hc
    refine ⟨?_, ?_, ?_⟩
    · simp [runSchedule, insertStep, InsertCall.start, hc, hcb]
    · simp [runSchedule, insertStep, InsertCall.start, hc, hcb]
    · simp [runSchedule, insertStep, InsertCall.start, hc, hcb]
  · have hca : (⟨registry.scans ++ [a]⟩ : FeroxScans).contains b.url = true := by
      rw [← h]
      simp [FeroxScans.contains, List.any_append]
    have hcb2 : registry.contains b.url = false := by
      rw [← h]
      simpa using hc
    have hcab : (⟨registry.scans ++ [b]⟩ : FeroxScans).contains a.url = true := by
      rw [h]
      simp [FeroxScans.contains, List.any_append]
    simp only [Bool.not_eq_true] at hc
    refine ⟨?_, ?_, ?_⟩
    · simp [runSchedule, insertStep, InsertCall.start, hc, hca]
    · simp [runSchedule, insertStep, InsertCall.start, hc, hca,
        FeroxScans.countUrl, List.filter_append]
    · simp [runSchedule, insertStep, InsertCall.start, hcb2, hcab]

/-- C9 witness: two non-overlapping same-url inserts on the empty
registry cannot both return true, through
`insert_atomic_only_sequentially`. -/
theorem insert_atomic_only_sequentially_witness :
    ¬((runSchedule FeroxScans.empty
        (InsertCall.start (FeroxScan.new "http://u" ScanType.File none "ida"))
        (InsertCall.start (FeroxScan.new "http://u" ScanType.File none "idb"))
        [false, false, true, true]).2.1.result = some true
      ∧ (runSchedule FeroxScans.empty
        (InsertCall.start (FeroxScan.new "http://u" ScanType.File none "ida"))
        (InsertCall.start (FeroxScan.new "http://u" ScanType.File none "idb"))
        [false, false, true, true]).2.2.result = some true) :=
  (insert_atomic_only_sequentially FeroxScans.empty
      (FeroxScan.new "http://u" ScanType.File none "ida")
      (FeroxScan.new "http://u" ScanType.File none "idb") rfl).1

/-- C10 witness: an object with one unrecognized key deserializes to the
default scan, through `scan_deserialize_total`. -/
theorem scan_deserialize_total_witness :
    FeroxScan.deserialize "fresh" (Json.obj [("unknown_key", Json.null)])
        = some (FeroxScan.default "fresh") :=
  scan_deserialize_total.2.2.2.2.2 "fresh" [("unknown_key", Json.null)]
    (fun kv hkv s => by
      have hkv2 : kv = ("unknown_key", Json.null) := by simpa using hkv
      subst hkv2
      rfl)
